import Mathlib

/-!
Verification development for the `uptime` package of
amartya2002/uptime-checker-core.

The Go sources are shallowly embedded:

* `time.Duration` values are `Int` (the Go type is an `int64` count of
  nanoseconds); the only arithmetic that can overflow in the sources is
  the multiplication in `LoadFromFile`, which is wrapped with `wrap64`.
* The `Checker`'s registration- and log-related mutable fields become the
  record `CheckerState`; each public method becomes a state transformer.
  `scheduled` records every endpoint handed to `scheduleEndpoint` (which
  immediately calls `time.NewTicker ep.Frequency`), and `stopClosed`
  models whether the `stopCh` channel has been closed (`isRunning`
  returns the negation of it).
* `os.ReadFile` and `json.Unmarshal` are external to the repository;
  `loadFromFile` therefore takes the file-read outcome and the
  unmarshalling function as oracles, mirroring the two early returns of
  the Go code.
* The HTTP stack is external as well: `checkEndpoint` takes an oracle
  yielding either the `http.NewRequest` error, the `client.Do` error, or
  a response status code, and builds the same `Result` values as the
  source.
* The worker-pool / shutdown concurrency is modelled by the small-step
  relation `Pool.Step` on `Pool.State` further below.
-/

namespace Uptime

/-- One nanosecond count of `time.Second`. -/
def second : Int := 1000000000

/-- `int64` wrap-around, for the one place Go duration arithmetic can
overflow (`LoadFromFile`'s multiplication). -/
def wrap64 (x : Int) : Int := (x + 2 ^ 63) % 2 ^ 64 - 2 ^ 63

/-- `Endpoint` from types.go: ID, Name, URL, Method, Frequency
(`time.Duration`, i.e. int64 nanoseconds), ExpectedStatus. -/
structure Endpoint where
  id : String
  name : String
  url : String
  method : String
  frequency : Int
  expectedStatus : Int
deriving DecidableEq, Repr

/-- `Result` from types.go. A Go struct literal leaves omitted fields at
their zero value; the embedding writes those zeroes explicitly. -/
structure Result where
  endpoint : Endpoint
  timestamp : Int
  statusCode : Int
  latency : Int
  success : Bool
  error : String
deriving DecidableEq, Repr

/-- `Job` from types.go. -/
structure Job where
  endpoint : Endpoint
  runAt : Int
deriving DecidableEq, Repr

/-- The registration/log-store view of the `Checker` struct.
`endpoints` and `logs` are the mutex-protected fields; `scheduled`
records each endpoint passed to `scheduleEndpoint` (= each
`time.NewTicker` creation, in order); `stopClosed` is whether `stopCh`
has been closed. -/
structure CheckerState where
  endpoints : List Endpoint
  scheduled : List Endpoint
  logs : String → List Result
  logRetention : Int
  stopClosed : Bool

/-- `New()` with no options: empty registry, empty log map (a Go map
read of a missing key yields the zero value `nil`), retention 100,
`stopCh` open. -/
def new : CheckerState :=
  { endpoints := []
    scheduled := []
    logs := fun _ => []
    logRetention := 100
    stopClosed := false }

/-- `WithLogRetention(n)`: sets the retention only when `n > 0`. -/
def withLogRetention (n : Int) (c : CheckerState) : CheckerState :=
  if n > 0 then { c with logRetention := n } else c

/-- `isRunning()`: the select on `stopCh` reports false only after the
channel is closed. -/
def isRunning (c : CheckerState) : Bool := !c.stopClosed

/-- The three zero-value defaults applied by `AddSite` (and, to the
loop-local copies only, by `AddSitesBulk`): frequency 30s, expected
status 200, method "GET". -/
def applyDefaults (ep : Endpoint) : Endpoint :=
  let ep := if ep.frequency = 0 then { ep with frequency := 30 * second } else ep
  let ep := if ep.expectedStatus = 0 then { ep with expectedStatus := 200 } else ep
  if ep.method = "" then { ep with method := "GET" } else ep

/-- `scheduleEndpoint`: creates `time.NewTicker(ep.Frequency)` and a
ticker goroutine; the model records the endpoint handed to it. -/
def scheduleEndpoint (c : CheckerState) (ep : Endpoint) : CheckerState :=
  { c with scheduled := c.scheduled ++ [ep] }

/-- `AddSite`: defaults, append under the mutex, then schedule if
`isRunning()`. -/
def addSite (c : CheckerState) (ep : Endpoint) : CheckerState :=
  let ep := applyDefaults ep
  let c := { c with endpoints := c.endpoints ++ [ep] }
  if isRunning c then scheduleEndpoint c ep else c

/-- `AddSitesBulk`: appends the sites unchanged under the mutex; then,
if `isRunning()`, applies the defaults to each loop-local copy and
schedules that copy. The stored registry entries are not defaulted. -/
def addSitesBulk (c : CheckerState) (sites : List Endpoint) : CheckerState :=
  let c := { c with endpoints := c.endpoints ++ sites }
  if isRunning c then sites.foldl (fun c ep => scheduleEndpoint c (applyDefaults ep)) c else c

/-- `Start`'s `scheduler()` goroutine: schedules every currently stored
endpoint, exactly as stored (no defaulting), then blocks on `stopCh`.
(The worker goroutines it also spawns are modelled in `Pool` below.) -/
def start (c : CheckerState) : CheckerState :=
  c.endpoints.foldl scheduleEndpoint c

/-- The `stopCh`-closing effect of `Stop` on the registration state. -/
def stop (c : CheckerState) : CheckerState := { c with stopClosed := true }

/-- The per-list step of `saveLog`: append, then if the length exceeds
the retention keep only the trailing `retention` entries
(`logs[len-retention:]`). -/
def saveStep (retention : Int) (l : List Result) (res : Result) : List Result :=
  let l := l ++ [res]
  if (l.length : Int) > retention then l.drop ((l.length : Int) - retention).toNat else l

/-- `saveLog`: updates the history of `res.Endpoint.ID` under the mutex. -/
def saveLog (c : CheckerState) (res : Result) : CheckerState :=
  { c with logs := fun k =>
      if k = res.endpoint.id then saveStep c.logRetention (c.logs k) res else c.logs k }

/-- `GetLogs(id, limit)`: `logs[len-limit:]` when the history is longer
than `limit`, otherwise the whole history. (For a negative `limit` the
Go slice expression would panic; no claim exercises that case.) -/
def getLogs (c : CheckerState) (id : String) (limit : Int) : List Result :=
  let logs := c.logs id
  if (logs.length : Int) > limit then logs.drop ((logs.length : Int) - limit).toNat else logs

/-- `ListSites`: a copy of the registry slice. -/
def listSites (c : CheckerState) : List Endpoint := c.endpoints

/-- `LoadFromFile`: early-returns the `os.ReadFile` error, then the
`json.Unmarshal` error; on success multiplies each frequency by
`time.Second` (int64 arithmetic), defaults zero expected statuses to
200, and registers via `AddSitesBulk`, returning `nil`. The returned
pair is (new state, returned error). -/
def loadFromFile (unmarshal : String → Except String (List Endpoint))
    (c : CheckerState) (readFile : Except String String) :
    CheckerState × Option String :=
  match readFile with
  | .error e => (c, some e)
  | .ok data =>
    match unmarshal data with
    | .error e => (c, some e)
    | .ok eps =>
      let eps := eps.map fun ep =>
        let ep := { ep with frequency := wrap64 (ep.frequency * second) }
        if ep.expectedStatus = 0 then { ep with expectedStatus := 200 } else ep
      (addSitesBulk c eps, none)

deriving instance DecidableEq for Except

/-- The public mutating operations, for claims over arbitrary call
sequences. `saveLog` is the worker-loop persistence step. -/
inductive Op where
  | addSite (ep : Endpoint)
  | addSitesBulk (sites : List Endpoint)
  | loadFromFile (readFile : Except String String)
  | start
  | stop
  | saveLog (res : Result)
deriving DecidableEq, Repr

/-- Interpretation of one operation on the checker state. -/
def applyOp (unmarshal : String → Except String (List Endpoint))
    (c : CheckerState) : Op → CheckerState
  | .addSite ep => addSite c ep
  | .addSitesBulk sites => addSitesBulk c sites
  | .loadFromFile readFile => (loadFromFile unmarshal c readFile).1
  | .start => start c
  | .stop => stop c
  | .saveLog res => saveLog c res

/-- The trailing `n` elements of a list, in order. -/
def lastN (n : Nat) (l : List α) : List α := l.drop (l.length - n)

/-- Does this operation persist a result under the given endpoint ID? -/
def opSavesId (op : Op) (id : String) : Bool :=
  match op with
  | .saveLog res => res.endpoint.id == id
  | _ => false

theorem length_lastN_le (n : Nat) (l : List α) : (lastN n l).length ≤ n := by
  simp only [lastN, List.length_drop]
  omega

theorem lastN_of_length_le {n : Nat} {l : List α} (h : l.length ≤ n) : lastN n l = l := by
  have h0 : l.length - n = 0 := by omega
  simp [lastN, h0]

theorem lastN_append_right {n : Nat} (a b : List α) (h : n ≤ b.length) :
    lastN n (a ++ b) = lastN n b := by
  simp only [lastN, List.length_append]
  have h1 : a.length + b.length - n = a.length + (b.length - n) := by omega
  rw [h1, List.drop_append]

theorem lastN_lastN_append (n : Nat) (a b : List α) :
    lastN n (lastN n a ++ b) = lastN n (a ++ b) := by
  by_cases hb : n ≤ b.length
  · rw [lastN_append_right _ _ hb, lastN_append_right _ _ hb]
  · by_cases ha : a.length ≤ n
    · rw [lastN_of_length_le ha]
    · simp only [lastN, List.length_append, List.length_drop]
      have e2 : a.length - (a.length - n) + b.length - n = b.length := by omega
      have e3 : a.length + b.length - n = a.length - n + b.length := by omega
      have hk : a.length - n ≤ a.length := by omega
      rw [e2, e3, ← List.drop_drop, List.drop_append_of_le_length hk]

theorem foldl_lastN_append (n : Nat) (rs : List α) :
    ∀ l0 : List α, l0.length ≤ n →
      rs.foldl (fun l r => lastN n (l ++ [r])) l0 = lastN n (l0 ++ rs) := by
  induction rs with
  | nil =>
    intro l0 h
    simp [lastN_of_length_le h]
  | cons r rs ih =>
    intro l0 _
    rw [List.foldl_cons, ih _ (length_lastN_le _ _), lastN_lastN_append]
    simp

theorem saveStep_eq_lastN {ret : Int} (h : 0 ≤ ret) (l : List Result) (r : Result) :
    saveStep ret l r = lastN ret.toNat (l ++ [r]) := by
  simp only [saveStep, lastN]
  split_ifs with h1
  · congr 1
    omega
  · have h0 : (l ++ [r]).length - ret.toNat = 0 := by omega
    rw [h0, List.drop_zero]

theorem saveLog_logRetention (c : CheckerState) (r : Result) :
    (saveLog c r).logRetention = c.logRetention := rfl

theorem foldl_saveLog_logs (rs : List Result) :
    ∀ (c : CheckerState) (id : String),
      (rs.foldl saveLog c).logRetention = c.logRetention ∧
      (rs.foldl saveLog c).logs id =
        (rs.filter fun r => decide (r.endpoint.id = id)).foldl
          (saveStep c.logRetention) (c.logs id) := by
  induction rs with
  | nil => intro c id; exact ⟨rfl, rfl⟩
  | cons r rs ih =>
    intro c id
    rw [List.foldl_cons, List.filter_cons]
    obtain ⟨ihr, ihl⟩ := ih (saveLog c r) id
    refine ⟨ihr.trans rfl, ?_⟩
    by_cases h : r.endpoint.id = id
    · have hlog : (saveLog c r).logs id = saveStep c.logRetention (c.logs id) r := by
        show (if id = r.endpoint.id then saveStep c.logRetention (c.logs id) r
              else c.logs id) = _
        rw [if_pos h.symm]
      rw [if_pos (by simp [h]), List.foldl_cons, ihl, hlog, saveLog_logRetention]
    · have hlog : (saveLog c r).logs id = c.logs id := by
        show (if id = r.endpoint.id then saveStep c.logRetention (c.logs id) r
              else c.logs id) = _
        rw [if_neg fun hh => h hh.symm]
      rw [if_neg (by simp [h]), ihl, hlog, saveLog_logRetention]

theorem getLogs_eq (c : CheckerState) (id : String) (limit : Int) :
    getLogs c id limit =
      if ((c.logs id).length : Int) > limit
      then (c.logs id).drop (((c.logs id).length : Int) - limit).toNat
      else c.logs id := rfl

theorem scheduleEndpoint_eq (c : CheckerState) (ep : Endpoint) :
    scheduleEndpoint c ep = { c with scheduled := c.scheduled ++ [ep] } := rfl

theorem foldl_scheduleEndpoint (l : List Endpoint) :
    ∀ c : CheckerState, l.foldl scheduleEndpoint c = { c with scheduled := c.scheduled ++ l } := by
  induction l with
  | nil => intro c; simp
  | cons e es ih =>
    intro c
    rw [List.foldl_cons, scheduleEndpoint_eq, ih]
    simp

theorem foldl_scheduleDefaults (l : List Endpoint) :
    ∀ c : CheckerState,
      l.foldl (fun c ep => scheduleEndpoint c (applyDefaults ep)) c
        = { c with scheduled := c.scheduled ++ l.map applyDefaults } := by
  induction l with
  | nil => intro c; simp
  | cons e es ih =>
    intro c
    rw [List.foldl_cons, scheduleEndpoint_eq, ih]
    simp

theorem addSite_eq (c : CheckerState) (ep : Endpoint) :
    addSite c ep =
      if c.stopClosed then { c with endpoints := c.endpoints ++ [applyDefaults ep] }
      else { c with endpoints := c.endpoints ++ [applyDefaults ep],
                    scheduled := c.scheduled ++ [applyDefaults ep] } := by
  unfold addSite isRunning
  cases h : c.stopClosed <;> simp [h, scheduleEndpoint_eq]

theorem addSitesBulk_eq (c : CheckerState) (sites : List Endpoint) :
    addSitesBulk c sites =
      if c.stopClosed then { c with endpoints := c.endpoints ++ sites }
      else { c with endpoints := c.endpoints ++ sites,
                    scheduled := c.scheduled ++ sites.map applyDefaults } := by
  unfold addSitesBulk isRunning
  cases h : c.stopClosed <;> simp [h, foldl_scheduleDefaults]

theorem addSitesBulk_endpoints (c : CheckerState) (sites : List Endpoint) :
    (addSitesBulk c sites).endpoints = c.endpoints ++ sites := by
  rw [addSitesBulk_eq]
  split_ifs <;> rfl

theorem addSitesBulk_logs (c : CheckerState) (sites : List Endpoint) :
    (addSitesBulk c sites).logs = c.logs := by
  rw [addSitesBulk_eq]
  split_ifs <;> rfl

theorem start_eq (c : CheckerState) :
    start c = { c with scheduled := c.scheduled ++ c.endpoints } :=
  foldl_scheduleEndpoint c.endpoints c

theorem wrap64_eq {x : Int} (h1 : -(2 ^ 63) ≤ x) (h2 : x < 2 ^ 63) : wrap64 x = x := by
  unfold wrap64
  omega

/-! Concrete inputs used by counterexamples and witnesses. -/

def epZero : Endpoint :=
  { id := "a", name := "A", url := "http://example", method := "",
    frequency := 0, expectedStatus := 0 }

def epBulkZero : Endpoint :=
  { id := "z", name := "Z", url := "http://example/z", method := "GET",
    frequency := 0, expectedStatus := 200 }

def epRaw : Endpoint :=
  { id := "r", name := "R", url := "http://example/r", method := "",
    frequency := 0, expectedStatus := 0 }

def epSecond : Endpoint :=
  { id := "s", name := "S", url := "http://example/s", method := "GET",
    frequency := 1, expectedStatus := 0 }

def resA : Result :=
  { endpoint := applyDefaults epZero, timestamp := 0, statusCode := 200,
    latency := 1, success := true, error := "" }

def resB : Result :=
  { endpoint := applyDefaults epZero, timestamp := 1, statusCode := 500,
    latency := 2, success := false, error := "" }

def u0 : String → Except String (List Endpoint) := fun _ => .error "invalid"

def uNil : String → Except String (List Endpoint) := fun _ => .ok []

def uSec : String → Except String (List Endpoint) := fun _ => .ok [epSecond]

def opsW : List Op := [Op.addSite epZero, Op.saveLog resA, Op.start, Op.stop]

def stateW : CheckerState := [resA, resB, resA].foldl saveLog (withLogRetention 2 new)

/-- C1: evaluation of the code at the failing registration sequence. A
zero-interval endpoint batch-registered before `Start` is stored
undefaulted, and `Start`'s scheduler hands that stored endpoint to
`scheduleEndpoint` (hence to `time.NewTicker`) with interval 0: timer
creation with a non-positive interval IS reachable, contradicting the
claim that every scheduling path defaults zero intervals to 30s first. -/
theorem start_after_bulk_schedules_zero_interval :
    (start (addSitesBulk new [epBulkZero])).scheduled
        = [applyDefaults epBulkZero, epBulkZero] ∧
    epBulkZero.frequency = 0 ∧
    ¬ (∀ ep ∈ (start (addSitesBulk new [epBulkZero])).scheduled, 0 < ep.frequency) := by
  decide

/-- C2: starting from a freshly constructed checker with any configured
retention, after any sequence of `saveLog` appends, each endpoint ID's
stored history is exactly the most recent `retention` results saved under
that ID, in arrival order, and its length never exceeds the configured
retention. -/
theorem saveLog_retention_invariant (r : Int) (rs : List Result) (id : String) :
    (((rs.foldl saveLog (withLogRetention r new)).logs id).length : Int)
        ≤ (withLogRetention r new).logRetention ∧
    (rs.foldl saveLog (withLogRetention r new)).logs id =
      lastN (withLogRetention r new).logRetention.toNat
        (rs.filter fun res => decide (res.endpoint.id = id)) := by
  have hret : 0 ≤ (withLogRetention r new).logRetention := by
    unfold withLogRetention new
    split_ifs with h
    · exact le_of_lt h
    · decide
  have hlogs0 : (withLogRetention r new).logs id = [] := by
    unfold withLogRetention new
    split_ifs <;> rfl
  obtain ⟨-, hl⟩ := foldl_saveLog_logs rs (withLogRetention r new) id
  rw [hl, hlogs0]
  have hstep : saveStep (withLogRetention r new).logRetention =
      fun l rr => lastN (withLogRetention r new).logRetention.toNat (l ++ [rr]) :=
    funext fun l => funext fun rr => saveStep_eq_lastN hret l rr
  rw [hstep, foldl_lastN_append _ _ [] (by simp)]
  simp only [List.nil_append]
  refine ⟨?_, by trivial⟩
  have h1 := length_lastN_le (withLogRetention r new).logRetention.toNat
    (rs.filter fun res => decide (res.endpoint.id = id))
  omega

/-- C4 counterexample: a batch-registered endpoint with empty method,
zero interval and zero expected status is listed exactly as passed in,
without the GET/30s/200 defaults, even though the system counts as
running (`stopCh` open) at registration time. -/
theorem bulk_registered_endpoint_listed_without_defaults :
    listSites (addSitesBulk new [epRaw]) = [epRaw] ∧
    epRaw.method = "" ∧ epRaw.frequency = 0 ∧ epRaw.expectedStatus = 0 := by
  decide

/-- C4 amended: batch registration appends each element to the registry
unchanged; the GET/30s/200 defaulting is applied only to the copies
handed to the scheduler when the stop signal is not yet raised, so
listing shows batch-registered endpoints with their original values. -/
theorem addSitesBulk_raw_registry_defaulted_schedule
    (c : CheckerState) (sites : List Endpoint) :
    listSites (addSitesBulk c sites) = listSites c ++ sites ∧
    (c.stopClosed = false →
      (addSitesBulk c sites).scheduled = c.scheduled ++ sites.map applyDefaults) := by
  refine ⟨addSitesBulk_endpoints c sites, fun h => ?_⟩
  rw [addSitesBulk_eq, if_neg (by simp [h])]

/-- Witness for the amended C4 at a concrete input. -/
theorem addSitesBulk_raw_registry_defaulted_schedule_witness :
    listSites (addSitesBulk new [epRaw]) = listSites new ++ [epRaw] ∧
    new.stopClosed = false ∧
    (addSitesBulk new [epRaw]).scheduled = new.scheduled ++ [epRaw].map applyDefaults :=
  ⟨(addSitesBulk_raw_registry_defaulted_schedule new [epRaw]).1, rfl,
   (addSitesBulk_raw_registry_defaulted_schedule new [epRaw]).2 rfl⟩

/-- C5: for a non-negative limit, `GetLogs` returns exactly the
`min limit length` most recent stored entries, as a suffix of the stored
history (hence in stored order). -/
theorem getLogs_returns_min_recent (c : CheckerState) (id : String) (limit : Int)
    (h : 0 ≤ limit) :
    getLogs c id limit = lastN limit.toNat (c.logs id) ∧
    ((getLogs c id limit).length : Int) = min limit ((c.logs id).length : Int) ∧
    List.IsSuffix (getLogs c id limit) (c.logs id) := by
  rw [getLogs_eq]
  split_ifs with hgt
  · refine ⟨?_, ?_, List.drop_suffix _ _⟩
    · unfold lastN
      congr 1
      omega
    · rw [List.length_drop]
      omega
  · refine ⟨?_, ?_, List.suffix_refl _⟩
    · unfold lastN
      have h0 : (c.logs id).length - limit.toNat = 0 := by omega
      rw [h0, List.drop_zero]
    · omega

/-- Witness for C5 at a concrete state holding three saved results with
retention 2 and limit 1. -/
theorem getLogs_returns_min_recent_witness :
    (0 : Int) ≤ 1 ∧
    (getLogs stateW "a" 1 = lastN (1 : Int).toNat (stateW.logs "a") ∧
     ((getLogs stateW "a" 1).length : Int) = min 1 ((stateW.logs "a").length : Int) ∧
     List.IsSuffix (getLogs stateW "a" 1) (stateW.logs "a")) :=
  ⟨by decide, getLogs_returns_min_recent stateW "a" 1 (by decide)⟩

/-- C8: on a successful load, every loaded record is registered with its
interval field multiplied by `time.Second` (seconds to nanoseconds, the
internal unit) and zero expected statuses defaulted to 200; the
no-overflow hypothesis discharges the `int64` wrap-around. -/
theorem loadFromFile_converts_seconds (u : String → Except String (List Endpoint))
    (c : CheckerState) (data : String) (eps : List Endpoint)
    (hu : u data = .ok eps)
    (hfit : ∀ ep ∈ eps,
      -(2 ^ 63) ≤ ep.frequency * second ∧ ep.frequency * second < 2 ^ 63) :
    (loadFromFile u c (.ok data)).2 = none ∧
    (loadFromFile u c (.ok data)).1.endpoints =
      c.endpoints ++ eps.map fun ep =>
        { ep with
          frequency := ep.frequency * second,
          expectedStatus := if ep.expectedStatus = 0 then 200 else ep.expectedStatus } := by
  simp only [loadFromFile, hu]
  refine ⟨by trivial, ?_⟩
  rw [addSitesBulk_endpoints]
  congr 1
  apply List.map_congr_left
  intro ep hep
  obtain ⟨h1, h2⟩ := hfit ep hep
  by_cases h : ep.expectedStatus = 0 <;> simp [wrap64_eq h1 h2, h]

/-- Witness for C8: a file whose single record has `frequency = 1`
(seconds) registers with frequency `1 * second` nanoseconds and expected
status 200. -/
theorem loadFromFile_converts_seconds_witness :
    (loadFromFile uSec new (.ok "file")).2 = none ∧
    (loadFromFile uSec new (.ok "file")).1.endpoints =
      new.endpoints ++ [epSecond].map fun ep =>
        { ep with
          frequency := ep.frequency * second,
          expectedStatus := if ep.expectedStatus = 0 then 200 else ep.expectedStatus } :=
  loadFromFile_converts_seconds uSec new "file" [epSecond] rfl (by decide)

/-- C9: a failed file read or a failed unmarshal is returned to the
caller and leaves the whole checker state (registry included)
unchanged; a successful load returns no error. -/
theorem loadFromFile_error_no_side_effects (u : String → Except String (List Endpoint))
    (c : CheckerState) :
    (∀ e, loadFromFile u c (.error e) = (c, some e)) ∧
    (∀ data e, u data = .error e → loadFromFile u c (.ok data) = (c, some e)) ∧
    (∀ data eps, u data = .ok eps → (loadFromFile u c (.ok data)).2 = none) := by
  refine ⟨fun e => rfl, ?_, ?_⟩
  · intro data e hu
    simp [loadFromFile, hu]
  · intro data eps hu
    simp [loadFromFile, hu]

/-- Witness for C9: a concrete read failure, a concrete unmarshal
failure, and a concrete success. -/
theorem loadFromFile_error_no_side_effects_witness :
    loadFromFile u0 new (.error "no such file") = (new, some "no such file") ∧
    loadFromFile u0 new (.ok "not json") = (new, some "invalid") ∧
    (loadFromFile uNil new (.ok "[]")).2 = none :=
  ⟨(loadFromFile_error_no_side_effects u0 new).1 "no such file",
   (loadFromFile_error_no_side_effects u0 new).2.1 "not json" "invalid" rfl,
   (loadFromFile_error_no_side_effects uNil new).2.2 "[]" [] rfl⟩

/-- C10: for any call sequence that never saves a result under `id`, and
any non-negative limit, `GetLogs id limit` returns the empty list. -/
theorem getLogs_unsaved_id_empty (u : String → Except String (List Endpoint))
    (ops : List Op) (id : String) (limit : Int) (h0 : 0 ≤ limit)
    (h : ∀ op ∈ ops, opSavesId op id = false) :
    getLogs (ops.foldl (applyOp u) new) id limit = [] := by
  have key : ∀ (ops : List Op) (c : CheckerState),
      (∀ op ∈ ops, opSavesId op id = false) →
      c.logs id = [] → (ops.foldl (applyOp u) c).logs id = [] := by
    intro ops
    induction ops with
    | nil => exact fun c _ hc => hc
    | cons op ops ih =>
      intro c hops hc
      rw [List.foldl_cons]
      refine ih _ (fun o ho => hops o (List.mem_cons_of_mem _ ho)) ?_
      have hop := hops op (List.mem_cons_self _ _)
      cases op with
      | addSite ep =>
        show (addSite c ep).logs id = []
        rw [addSite_eq]
        split_ifs <;> exact hc
      | addSitesBulk sites =>
        show (addSitesBulk c sites).logs id = []
        rw [addSitesBulk_logs]
        exact hc
      | loadFromFile rf =>
        show ((loadFromFile u c rf).1).logs id = []
        cases rf with
        | error e => exact hc
        | ok data =>
          cases hu : u data with
          | error e =>
            simp only [loadFromFile, hu]
            exact hc
          | ok eps =>
            simp only [loadFromFile, hu]
            rw [addSitesBulk_logs]
            exact hc
      | start =>
        show (start c).logs id = []
        rw [start_eq]
        exact hc
      | stop => exact hc
      | saveLog res =>
        have hne : res.endpoint.id ≠ id := by simpa [opSavesId] using hop
        show (if id = res.endpoint.id then saveStep c.logRetention (c.logs id) res
              else c.logs id) = []
        rw [if_neg fun hh => hne hh.symm]
        exact hc
  have hlogs := key ops new h rfl
  rw [getLogs_eq, hlogs]
  split_ifs <;> simp

/-- Witness for C10 at a concrete call sequence saving only under "a". -/
theorem getLogs_unsaved_id_empty_witness :
    (0 : Int) ≤ 3 ∧ (∀ op ∈ opsW, opSavesId op "nobody" = false) ∧
    getLogs (opsW.foldl (applyOp u0) new) "nobody" 3 = [] :=
  ⟨by decide, by decide,
   getLogs_unsaved_id_empty u0 opsW "nobody" 3 (by decide) (by decide)⟩

/-! The prober, `checkEndpoint` (options.go). The HTTP stack is outside
the repository, so the two fallible calls are an oracle: either
`http.NewRequest` fails, or `httpClient.Do` fails, or a response with a
status code arrives. -/

/-- Outcome of the HTTP layer for one endpoint. -/
inductive HttpOutcome where
  | newRequestErr (msg : String)
  | transportErr (msg : String)
  | response (statusCode : Int)
deriving DecidableEq, Repr

/-- `checkEndpoint`: mirrors the three returns of the Go function. The
fields Go leaves at their zero value (`StatusCode` in the error returns,
`Error` in the success return) are written explicitly. -/
def checkEndpoint (http : Endpoint → HttpOutcome) (now latency : Int)
    (ep : Endpoint) : Result :=
  match http ep with
  | .newRequestErr msg =>
    { endpoint := ep, timestamp := now, statusCode := 0, latency := latency,
      success := false, error := "Error creating request: " ++ msg }
  | .transportErr msg =>
    { endpoint := ep, timestamp := now, statusCode := 0, latency := latency,
      success := false, error := msg }
  | .response code =>
    { endpoint := ep, timestamp := now, statusCode := code, latency := latency,
      success := decide (code = ep.expectedStatus), error := "" }

/-- C3: the probe always yields a `Result`; on request-construction or
transport failure it has success=false, status code 0 and a non-empty
error text (for the transport case under the `net/http` guarantee that a
`url.Error`'s text is non-empty); on a response it carries the response
status code and succeeds exactly when that code equals the endpoint's
expected status. -/
theorem checkEndpoint_result_shape (http : Endpoint → HttpOutcome)
    (now latency : Int) (ep : Endpoint)
    (hmsg : ∀ m, http ep = .transportErr m → m ≠ "") :
    (∀ m, http ep = .newRequestErr m →
      (checkEndpoint http now latency ep).success = false ∧
      (checkEndpoint http now latency ep).statusCode = 0 ∧
      (checkEndpoint http now latency ep).error ≠ "") ∧
    (∀ m, http ep = .transportErr m →
      (checkEndpoint http now latency ep).success = false ∧
      (checkEndpoint http now latency ep).statusCode = 0 ∧
      (checkEndpoint http now latency ep).error ≠ "") ∧
    (∀ code, http ep = .response code →
      (checkEndpoint http now latency ep).statusCode = code ∧
      ((checkEndpoint http now latency ep).success = true ↔
        code = ep.expectedStatus)) := by
  refine ⟨?_, ?_, ?_⟩
  · intro m hm
    refine ⟨by simp [checkEndpoint, hm], by simp [checkEndpoint, hm], ?_⟩
    have herr : (checkEndpoint http now latency ep).error
        = "Error creating request: " ++ m := by
      simp [checkEndpoint, hm]
    rw [herr]
    intro habs
    have hl := congrArg String.length habs
    rw [String.length_append] at hl
    have h24 : ("Error creating request: ").length = 24 := rfl
    have h0 : ("" : String).length = 0 := rfl
    omega
  · intro m hm
    refine ⟨by simp [checkEndpoint, hm], by simp [checkEndpoint, hm], ?_⟩
    have herr : (checkEndpoint http now latency ep).error = m := by
      simp [checkEndpoint, hm]
    rw [herr]
    exact hmsg m hm
  · intro code hc
    refine ⟨by simp [checkEndpoint, hc], ?_⟩
    have hsucc : (checkEndpoint http now latency ep).success
        = decide (code = ep.expectedStatus) := by
      simp [checkEndpoint, hc]
    rw [hsucc]
    simp

/-- Witness for C3: a concrete oracle that refuses the connection. -/
def httpRefused : Endpoint → HttpOutcome :=
  fun _ => .transportErr "Get \"http://example\": connection refused"

/-- Witness for C3 at the concrete refused-connection oracle. -/
theorem checkEndpoint_result_shape_witness :
    (checkEndpoint httpRefused 0 1 epZero).success = false ∧
    (checkEndpoint httpRefused 0 1 epZero).statusCode = 0 ∧
    (checkEndpoint httpRefused 0 1 epZero).error ≠ "" :=
  (checkEndpoint_result_shape httpRefused 0 1 epZero
      (by intro m hm; cases hm; decide)).2.1
    "Get \"http://example\": connection refused" rfl

end Uptime

/-! The worker pool and shutdown, as a small-step transition system over
the goroutines of checker.go/options.go: the fixed worker goroutines
(`worker`), the `scheduler` goroutine, the ticker goroutines (which only
enqueue), and the caller running `Stop`. `stream` records, in order, the
jobs whose Results have been sent on the `results` channel (one entry
per published Result). `stopPC` is `Stop`'s progress: 0 = not called,
1 = `close(stopCh)` done, 2 = `close(jobs)` done, 3 = `wg.Wait()`
returned, 4 = `close(results)` done, i.e. `Stop` returned. Go's `select`
picks nondeterministically among ready cases, so with `stopCh` closed a
worker's stop branch is enabled even while jobs remain queued. -/

namespace Pool

open Uptime in
/-- Program counter of one worker goroutine: blocked at the select
(`idle`), processing a dequeued job (`busy`), or returned (`done`). -/
inductive WStatus where
  | idle
  | busy (j : Job)
  | done
deriving DecidableEq, Repr

open Uptime in
/-- Shared state of the pool, the queues and `Stop`'s caller. -/
structure State where
  queue : List Job
  stream : List Job
  workers : List WStatus
  schedDone : Bool
  resultsClosed : Bool
  stopPC : Nat
deriving DecidableEq, Repr

/-- `Start` with `n` workers: nothing queued or published, every worker
at its select, `scheduler` running, channels open. -/
def init (n : Nat) : State :=
  { queue := [], stream := [], workers := List.replicate n .idle,
    schedDone := false, resultsClosed := false, stopPC := 0 }

open Uptime in
/-- One interleaving step. -/
inductive Step : State → State → Prop where
  | enqueue (s : State) (j : Job) (h : s.stopPC < 2) :
      Step s { s with queue := s.queue ++ [j] }
  | workerStop (s : State) (i : Nat) (h : s.workers[i]? = some .idle)
      (hs : 1 ≤ s.stopPC) :
      Step s { s with workers := s.workers.set i .done }
  | workerJob (s : State) (i : Nat) (j : Job) (q : List Job)
      (h : s.workers[i]? = some .idle) (hq : s.queue = j :: q) :
      Step s { s with workers := s.workers.set i (.busy j), queue := q }
  | workerClosed (s : State) (i : Nat) (h : s.workers[i]? = some .idle)
      (h2 : 2 ≤ s.stopPC) (hq : s.queue = []) :
      Step s { s with workers := s.workers.set i .done }
  | publish (s : State) (i : Nat) (j : Job) (h : s.workers[i]? = some (.busy j)) :
      Step s { s with workers := s.workers.set i .idle, stream := s.stream ++ [j] }
  | schedExit (s : State) (h : 1 ≤ s.stopPC) (hd : s.schedDone = false) :
      Step s { s with schedDone := true }
  | stopCloseStop (s : State) (h : s.stopPC = 0) : Step s { s with stopPC := 1 }
  | stopCloseJobs (s : State) (h : s.stopPC = 1) : Step s { s with stopPC := 2 }
  | stopWaitDone (s : State) (h : s.stopPC = 2)
      (hw : ∀ w ∈ s.workers, w = .done) (hsd : s.schedDone = true) :
      Step s { s with stopPC := 3 }
  | stopCloseResults (s : State) (h : s.stopPC = 3) :
      Step s { s with stopPC := 4, resultsClosed := true }

/-- States reachable from some initial state. -/
inductive Reachable : State → Prop where
  | init (n : Nat) : Reachable (Pool.init n)
  | step {s t : State} (h : Reachable s) (hs : Step s t) : Reachable t

/-- Zero or more steps. -/
inductive StepStar : State → State → Prop where
  | refl (s : State) : StepStar s s
  | tail {s t u : State} (h : StepStar s t) (hs : Step t u) : StepStar s u

/-- Reachability invariant: once `wg.Wait` has returned every worker has
exited and the scheduler has exited; the results channel is closed
exactly when `Stop` has returned. -/
def Inv (s : State) : Prop :=
  (3 ≤ s.stopPC → (∀ w ∈ s.workers, w = WStatus.done) ∧ s.schedDone = true) ∧
  (s.resultsClosed = true ↔ s.stopPC = 4) ∧ s.stopPC ≤ 4

theorem inv_init (n : Nat) : Inv (init n) := by
  refine ⟨fun h => absurd h (by simp [init]), by simp [init], by simp [init]⟩

theorem all_done_set {l : List WStatus} (h : ∀ w ∈ l, w = WStatus.done) (i : Nat) :
    ∀ w ∈ l.set i WStatus.done, w = WStatus.done := by
  intro w hw
  rcases List.mem_or_eq_of_mem_set hw with h1 | h1
  · exact h w h1
  · exact h1

theorem inv_step {s t : State} (hinv : Inv s) (hs : Step s t) : Inv t := by
  obtain ⟨hw, hrc, hle⟩ := hinv
  cases hs with
  | enqueue j h => exact ⟨hw, hrc, hle⟩
  | workerStop i h hs' =>
    exact ⟨fun h3 => ⟨all_done_set (hw h3).1 i, (hw h3).2⟩, hrc, hle⟩
  | workerJob i j q h hq =>
    exact ⟨fun h3 => absurd ((hw h3).1 _ (List.getElem?_mem h))
      (fun hx => WStatus.noConfusion hx), hrc, hle⟩
  | workerClosed i h h2 hq =>
    exact ⟨fun h3 => ⟨all_done_set (hw h3).1 i, (hw h3).2⟩, hrc, hle⟩
  | publish i j h =>
    exact ⟨fun h3 => absurd ((hw h3).1 _ (List.getElem?_mem h))
      (fun hx => WStatus.noConfusion hx), hrc, hle⟩
  | schedExit h hd =>
    exact ⟨fun h3 => ⟨(hw h3).1, rfl⟩, hrc, hle⟩
  | stopCloseStop h =>
    refine ⟨fun h3 => absurd h3 (by show ¬ (3 : Nat) ≤ 1; decide),
      ?_, by show (1 : Nat) ≤ 4; decide⟩
    constructor
    · intro hc
      exact absurd (hrc.mp hc) (by omega)
    · intro hc
      exact absurd hc (by show ¬ (1 : Nat) = 4; decide)
  | stopCloseJobs h =>
    refine ⟨fun h3 => absurd h3 (by show ¬ (3 : Nat) ≤ 2; decide),
      ?_, by show (2 : Nat) ≤ 4; decide⟩
    constructor
    · intro hc
      exact absurd (hrc.mp hc) (by omega)
    · intro hc
      exact absurd hc (by show ¬ (2 : Nat) = 4; decide)
  | stopWaitDone h hww hsd =>
    refine ⟨fun _ => ⟨hww, hsd⟩, ?_, by show (3 : Nat) ≤ 4; decide⟩
    constructor
    · intro hc
      exact absurd (hrc.mp hc) (by omega)
    · intro hc
      exact absurd hc (by show ¬ (3 : Nat) = 4; decide)
  | stopCloseResults h =>
    exact ⟨fun _ => hw (by omega), ⟨fun _ => rfl, fun _ => rfl⟩,
      by show (4 : Nat) ≤ 4; decide⟩

theorem inv_reachable {s : State} (hr : Reachable s) : Inv s := by
  induction hr with
  | init n => exact inv_init n
  | step h hs ih => exact inv_step ih hs

theorem stopped_terminal {s t : State} (hr : Reachable s) (h4 : s.stopPC = 4) :
    ¬ Step s t := by
  intro hstep
  have hinv := inv_reachable hr
  obtain ⟨hw, -, -⟩ := hinv
  obtain ⟨hdone, hsched⟩ := hw (by omega)
  cases hstep with
  | enqueue j h => omega
  | workerStop i h hs' =>
    exact absurd (hdone _ (List.getElem?_mem h)) (fun hx => WStatus.noConfusion hx)
  | workerJob i j q h hq =>
    exact absurd (hdone _ (List.getElem?_mem h)) (fun hx => WStatus.noConfusion hx)
  | workerClosed i h h2 hq =>
    exact absurd (hdone _ (List.getElem?_mem h)) (fun hx => WStatus.noConfusion hx)
  | publish i j h =>
    exact absurd (hdone _ (List.getElem?_mem h)) (fun hx => WStatus.noConfusion hx)
  | schedExit h hd =>
    rw [hsched] at hd
    cases hd
  | stopCloseStop h => omega
  | stopCloseJobs h => omega
  | stopWaitDone h hww hsd => omega
  | stopCloseResults h => omega

theorem stepStar_stopped_eq {s t : State} (hr : Reachable s) (h4 : s.stopPC = 4)
    (hst : StepStar s t) : t = s := by
  induction hst with
  | refl => rfl
  | tail h hs ih =>
    rw [ih] at hs
    exact absurd hs (stopped_terminal hr h4)

/-- C6: in every reachable state in which `Stop` has returned, the
results channel is closed (a read sees end-of-stream, not a block), and
along any further steps the set of published Results never grows and the
channel stays closed: no further Result is produced or published. -/
theorem stop_closes_stream_no_more_results {s : State} (hr : Reachable s)
    (h4 : s.stopPC = 4) :
    s.resultsClosed = true ∧
    ∀ t, StepStar s t → t.resultsClosed = true ∧ t.stream = s.stream := by
  have hinv := inv_reachable hr
  have hclosed : s.resultsClosed = true := hinv.2.1.mpr h4
  refine ⟨hclosed, fun t hst => ?_⟩
  rw [stepStar_stopped_eq hr h4 hst]
  exact ⟨hclosed, rfl⟩

def jobW : Uptime.Job := { endpoint := Uptime.applyDefaults Uptime.epZero, runAt := 0 }

def w0 : State := init 1

def w1 : State := { w0 with stopPC := 1 }

def w2 : State := { w1 with workers := [WStatus.done] }

def w3 : State := { w2 with stopPC := 2 }

def w4 : State := { w3 with schedDone := true }

def w5 : State := { w4 with stopPC := 3 }

def w6 : State := { w5 with stopPC := 4, resultsClosed := true }

theorem reach_w6 : Reachable w6 := by
  have r0 : Reachable w0 := Reachable.init 1
  have r1 : Reachable w1 := r0.step (Step.stopCloseStop w0 rfl)
  have r2 : Reachable w2 := r1.step (Step.workerStop w1 0 (by decide) (by decide))
  have r3 : Reachable w3 := r2.step (Step.stopCloseJobs w2 rfl)
  have r4 : Reachable w4 := r3.step (Step.schedExit w3 (by decide) rfl)
  have r5 : Reachable w5 := r4.step (Step.stopWaitDone w4 rfl (by decide) rfl)
  exact r5.step (Step.stopCloseResults w5 rfl)

/-- Witness for C6 at a concrete fully stopped run with one worker. -/
theorem stop_closes_stream_no_more_results_witness :
    w6.resultsClosed = true ∧ w6.stream = w6.stream :=
  ⟨(stop_closes_stream_no_more_results reach_w6 rfl).1,
   ((stop_closes_stream_no_more_results reach_w6 rfl).2 w6 (StepStar.refl w6)).2⟩

/-- The claim of C7 as stated: a worker exits only when the job queue
has been closed and fully drained, i.e. every reachable worker-exit step
happens with the jobs channel closed and the queue empty. -/
def ExitOnlyWhenDrained : Prop :=
  ∀ s t : State, ∀ i : Nat, Reachable s → Step s t →
    s.workers[i]? = some WStatus.idle → t.workers[i]? = some WStatus.done →
    2 ≤ s.stopPC ∧ s.queue = []

def x0 : State := init 1

def x1 : State := { x0 with queue := [jobW] }

def x2 : State := { x1 with stopPC := 1 }

def x3 : State := { x2 with workers := [WStatus.done] }

theorem reach_x2 : Reachable x2 := by
  have r0 : Reachable x0 := Reachable.init 1
  have r1 : Reachable x1 := r0.step (Step.enqueue x0 jobW (by decide))
  exact r1.step (Step.stopCloseStop x1 rfl)

/-- C7 counterexample: with the stop signal raised (select's stop branch
ready), a worker may take the stop branch and exit while a job is still
queued and the jobs channel is not even closed yet. -/
theorem worker_exits_with_queued_job : ¬ ExitOnlyWhenDrained := by
  intro hcl
  have hstep : Step x2 x3 := Step.workerStop x2 0 (by decide) (by decide)
  have hres := hcl x2 x3 0 reach_x2 hstep (by decide) (by decide)
  exact absurd hres.2 (by decide)

/-- C7 amended: a worker exit step happens only from a state where the
stop signal has been raised, or where the jobs channel is closed and the
queue drained; absent a pending stop signal a worker never exits while
an undequeued job remains. -/
theorem worker_exit_stop_or_drained {s t : State} (i : Nat)
    (hr : Reachable s) (hstep : Step s t)
    (hidle : s.workers[i]? = some WStatus.idle)
    (hdone : t.workers[i]? = some WStatus.done) :
    1 ≤ s.stopPC ∨ (2 ≤ s.stopPC ∧ s.queue = []) := by
  cases hstep with
  | enqueue j h =>
    have hdone' : s.workers[i]? = some WStatus.done := hdone
    exact WStatus.noConfusion (Option.some.inj (hidle.symm.trans hdone'))
  | workerStop i' h hs' => exact Or.inl hs'
  | workerJob i' j q h hq =>
    have hdone' : (s.workers.set i' (WStatus.busy j))[i]? = some WStatus.done := hdone
    rw [List.getElem?_set] at hdone'
    by_cases h1 : i' = i
    · rw [if_pos h1] at hdone'
      by_cases h2 : i' < s.workers.length
      · rw [if_pos h2] at hdone'
        exact WStatus.noConfusion (Option.some.inj hdone')
      · rw [if_neg h2] at hdone'
        exact Option.noConfusion hdone'
    · rw [if_neg h1] at hdone'
      exact WStatus.noConfusion (Option.some.inj (hidle.symm.trans hdone'))
  | workerClosed i' h h2 hq => exact Or.inr ⟨h2, hq⟩
  | publish i' j h =>
    have hdone' : (s.workers.set i' WStatus.idle)[i]? = some WStatus.done := hdone
    rw [List.getElem?_set] at hdone'
    by_cases h1 : i' = i
    · rw [if_pos h1] at hdone'
      by_cases h2 : i' < s.workers.length
      · rw [if_pos h2] at hdone'
        exact WStatus.noConfusion (Option.some.inj hdone')
      · rw [if_neg h2] at hdone'
        exact Option.noConfusion hdone'
    · rw [if_neg h1] at hdone'
      exact WStatus.noConfusion (Option.some.inj (hidle.symm.trans hdone'))
  | schedExit h hd =>
    have hdone' : s.workers[i]? = some WStatus.done := hdone
    exact WStatus.noConfusion (Option.some.inj (hidle.symm.trans hdone'))
  | stopCloseStop h =>
    have hdone' : s.workers[i]? = some WStatus.done := hdone
    exact WStatus.noConfusion (Option.some.inj (hidle.symm.trans hdone'))
  | stopCloseJobs h =>
    have hdone' : s.workers[i]? = some WStatus.done := hdone
    exact WStatus.noConfusion (Option.some.inj (hidle.symm.trans hdone'))
  | stopWaitDone h hww hsd =>
    have hdone' : s.workers[i]? = some WStatus.done := hdone
    exact WStatus.noConfusion (Option.some.inj (hidle.symm.trans hdone'))
  | stopCloseResults h =>
    have hdone' : s.workers[i]? = some WStatus.done := hdone
    exact WStatus.noConfusion (Option.some.inj (hidle.symm.trans hdone'))

/-- Witness for the amended C7 at a concrete exit step taken on the stop
signal. -/
theorem worker_exit_stop_or_drained_witness :
    1 ≤ x2.stopPC ∨ (2 ≤ x2.stopPC ∧ x2.queue = []) :=
  worker_exit_stop_or_drained 0 reach_x2
    (Step.workerStop x2 0 (by decide) (by decide)) (by decide) (by decide)

end Pool
